import Mathlib

/-!
# Verification of the hotkey coordination logic of `gemini-mcq-bot`

Shallow embedding of `hotkey_listener.py` (class `HotkeyListener`) and of the
workflow callback `ScreenshotAnalyzerApp.run_analysis_workflow` from
`main_screenshot.py`, together with proofs of the specification claims about
them.

Conventions of the embedding:
* pynput key objects (`keyboard.Key` members and `keyboard.KeyCode`) become the
  inductive type `PKey`; `keyboard.KeyCode.from_char(c)` becomes
  `PKey.keycode c`.
* Python sets become `Finset PKey`; `set.add` is `insert`, `set.discard` is
  `Finset.erase`, `issubset` is `⊆`.
* A Python method that can raise is a function into `Option`/`Except`; a
  `try/except` block is an explicit `match` on the `Except` value, keeping the
  instance-state mutations already performed when the exception was raised.
* The mutable fields of the `HotkeyListener` instance become the record
  `HotkeyState`, threaded explicitly; the fields fixed at construction time
  (`_trigger_combination`, `_exit_key_obj`) become `HotkeyConfig`.
-/

namespace GeminiMcqBot

/-- Key objects: the members of pynput's `keyboard.Key` enumeration (as
documented by pynput; a few members are platform specific) plus
`keyboard.KeyCode` values produced by `KeyCode.from_char`.  `keyboard.Key.end`
is rendered `end_key` because `end` is a Lean keyword. -/
inductive PKey where
  | shift | shift_l | shift_r
  | ctrl | ctrl_l | ctrl_r
  | alt | alt_l | alt_r | alt_gr
  | cmd | cmd_l | cmd_r
  | esc | space | enter | tab | backspace | delete
  | up | down | left | right
  | page_up | page_down | home | end_key
  | f1 | f2 | f3 | f4 | f5 | f6 | f7 | f8 | f9 | f10
  | f11 | f12 | f13 | f14 | f15 | f16 | f17 | f18 | f19 | f20
  | caps_lock | insert | menu | num_lock | pause | print_screen | scroll_lock
  | media_play_pause | media_volume_mute | media_volume_down
  | media_volume_up | media_previous | media_next
  | keycode (c : Char)

/-- The 60 non-`keycode` keys, indexed by the first component of
`PKey.code`. -/
def PKey.finiteKeys : List PKey :=
  [.shift, .shift_l, .shift_r,
   .ctrl, .ctrl_l, .ctrl_r,
   .alt, .alt_l, .alt_r, .alt_gr,
   .cmd, .cmd_l, .cmd_r,
   .esc, .space, .enter, .tab, .backspace, .delete,
   .up, .down, .left, .right,
   .page_up, .page_down, .home, .end_key,
   .f1, .f2, .f3, .f4, .f5, .f6, .f7, .f8, .f9, .f10,
   .f11, .f12, .f13, .f14, .f15, .f16, .f17, .f18, .f19, .f20,
   .caps_lock, .insert, .menu, .num_lock, .pause, .print_screen,
   .scroll_lock,
   .media_play_pause, .media_volume_mute, .media_volume_down,
   .media_volume_up, .media_previous, .media_next]

/-- An injective code for keys: the index into `PKey.finiteKeys` paired with
a dummy character, or `60` paired with the embedded character for `keycode`.
Only used to define a decidable equality whose term stays shallow (the
automatically derived instance for a 61-constructor inductive produces an
impractically deep term). -/
def PKey.code : PKey → Nat × Char
  | .shift => (0, 'a')
  | .shift_l => (1, 'a')
  | .shift_r => (2, 'a')
  | .ctrl => (3, 'a')
  | .ctrl_l => (4, 'a')
  | .ctrl_r => (5, 'a')
  | .alt => (6, 'a')
  | .alt_l => (7, 'a')
  | .alt_r => (8, 'a')
  | .alt_gr => (9, 'a')
  | .cmd => (10, 'a')
  | .cmd_l => (11, 'a')
  | .cmd_r => (12, 'a')
  | .esc => (13, 'a')
  | .space => (14, 'a')
  | .enter => (15, 'a')
  | .tab => (16, 'a')
  | .backspace => (17, 'a')
  | .delete => (18, 'a')
  | .up => (19, 'a')
  | .down => (20, 'a')
  | .left => (21, 'a')
  | .right => (22, 'a')
  | .page_up => (23, 'a')
  | .page_down => (24, 'a')
  | .home => (25, 'a')
  | .end_key => (26, 'a')
  | .f1 => (27, 'a')
  | .f2 => (28, 'a')
  | .f3 => (29, 'a')
  | .f4 => (30, 'a')
  | .f5 => (31, 'a')
  | .f6 => (32, 'a')
  | .f7 => (33, 'a')
  | .f8 => (34, 'a')
  | .f9 => (35, 'a')
  | .f10 => (36, 'a')
  | .f11 => (37, 'a')
  | .f12 => (38, 'a')
  | .f13 => (39, 'a')
  | .f14 => (40, 'a')
  | .f15 => (41, 'a')
  | .f16 => (42, 'a')
  | .f17 => (43, 'a')
  | .f18 => (44, 'a')
  | .f19 => (45, 'a')
  | .f20 => (46, 'a')
  | .caps_lock => (47, 'a')
  | .insert => (48, 'a')
  | .menu => (49, 'a')
  | .num_lock => (50, 'a')
  | .pause => (51, 'a')
  | .print_screen => (52, 'a')
  | .scroll_lock => (53, 'a')
  | .media_play_pause => (54, 'a')
  | .media_volume_mute => (55, 'a')
  | .media_volume_down => (56, 'a')
  | .media_volume_up => (57, 'a')
  | .media_previous => (58, 'a')
  | .media_next => (59, 'a')
  | .keycode c => (60, c)

/-- Decode `PKey.code`-values back to keys. -/
def PKey.ofCode (p : Nat × Char) : Option PKey :=
  if p.1 = 60 then some (PKey.keycode p.2) else PKey.finiteKeys[p.1]?

instance : DecidableEq PKey := fun a b =>
  if h : a.code = b.code then
    isTrue (by
      have hr : ∀ k : PKey, PKey.ofCode k.code = some k := by
        intro k
        cases k <;> rfl
      have hab := hr a
      rw [h, hr b] at hab
      exact (Option.some_inj.mp hab).symm)
  else isFalse fun he => h (he ▸ rfl)

/-- Embeds `HotkeyListener._KEY_MAP`: the static parsing table, entry for entry.
Note that `"win"` and `"command"` are aliases of `keyboard.Key.cmd`. -/
def KEY_MAP : String → Option PKey
  | "shift" => some .shift
  | "ctrl" => some .ctrl
  | "alt" => some .alt
  | "cmd" => some .cmd
  | "win" => some .cmd
  | "command" => some .cmd
  | "esc" => some .esc
  | "space" => some .space
  | "enter" => some .enter
  | "tab" => some .tab
  | "backspace" => some .backspace
  | "delete" => some .delete
  | "up" => some .up
  | "down" => some .down
  | "left" => some .left
  | "right" => some .right
  | "page_up" => some .page_up
  | "page_down" => some .page_down
  | "home" => some .home
  | "end" => some .end_key
  | "f1" => some .f1
  | "f2" => some .f2
  | "f3" => some .f3
  | "f4" => some .f4
  | "f5" => some .f5
  | "f6" => some .f6
  | "f7" => some .f7
  | "f8" => some .f8
  | "f9" => some .f9
  | "f10" => some .f10
  | "f11" => some .f11
  | "f12" => some .f12
  | _ => none

/-- Embeds the *enum-member* portion of `getattr(keyboard.Key, part, None)`,
the fallback branch of `_parse_hotkey_string` for multi-character tokens that
are not in `_KEY_MAP`: pynput's documented `Key` members (`insert`, `menu`,
`num_lock`, `pause`, `print_screen`, `scroll_lock` may be absent on some
platforms; they are included as documented).

This table is deliberately *partial* as a model of Python attribute lookup:
`getattr` on the `Key` class also resolves non-member class attributes
inherited from `Enum`, its metaclass and `object` — for example `"mro"` or
dunder names such as `"__members__"` — and those resolve to truthy non-key
objects, so the corresponding tokens are *accepted* by the parser.  Which
non-member names resolve (and whether the attribute found is truthy) is
decided by the Python runtime and library versions, not by this repository's
source, so it cannot be enumerated faithfully here.  `Key_getattr` is
therefore used only where enum-member names alone are at stake (the concrete
counterexamples, and claim C5's upper bound, which holds for any resolver);
every statement whose truth depends on the *whole* resolver is proved for an
arbitrary resolver via `lookup_key_part_with` below, which subsumes the
genuine one. -/
def Key_getattr : String → Option PKey
  | "shift" => some .shift
  | "shift_l" => some .shift_l
  | "shift_r" => some .shift_r
  | "ctrl" => some .ctrl
  | "ctrl_l" => some .ctrl_l
  | "ctrl_r" => some .ctrl_r
  | "alt" => some .alt
  | "alt_l" => some .alt_l
  | "alt_r" => some .alt_r
  | "alt_gr" => some .alt_gr
  | "cmd" => some .cmd
  | "cmd_l" => some .cmd_l
  | "cmd_r" => some .cmd_r
  | "esc" => some .esc
  | "space" => some .space
  | "enter" => some .enter
  | "tab" => some .tab
  | "backspace" => some .backspace
  | "delete" => some .delete
  | "up" => some .up
  | "down" => some .down
  | "left" => some .left
  | "right" => some .right
  | "page_up" => some .page_up
  | "page_down" => some .page_down
  | "home" => some .home
  | "end" => some .end_key
  | "f1" => some .f1
  | "f2" => some .f2
  | "f3" => some .f3
  | "f4" => some .f4
  | "f5" => some .f5
  | "f6" => some .f6
  | "f7" => some .f7
  | "f8" => some .f8
  | "f9" => some .f9
  | "f10" => some .f10
  | "f11" => some .f11
  | "f12" => some .f12
  | "f13" => some .f13
  | "f14" => some .f14
  | "f15" => some .f15
  | "f16" => some .f16
  | "f17" => some .f17
  | "f18" => some .f18
  | "f19" => some .f19
  | "f20" => some .f20
  | "caps_lock" => some .caps_lock
  | "insert" => some .insert
  | "menu" => some .menu
  | "num_lock" => some .num_lock
  | "pause" => some .pause
  | "print_screen" => some .print_screen
  | "scroll_lock" => some .scroll_lock
  | "media_play_pause" => some .media_play_pause
  | "media_volume_mute" => some .media_volume_mute
  | "media_volume_down" => some .media_volume_down
  | "media_volume_up" => some .media_volume_up
  | "media_previous" => some .media_previous
  | "media_next" => some .media_next
  | _ => none

/-- One token of a hotkey string, after `.strip()`, with the attribute
resolver abstracted: the per-part body of the loop in
`_parse_hotkey_string`.  First the `_KEY_MAP` lookup, then the
single-character branch (`keyboard.KeyCode.from_char`, which cannot fail on a
one-character string), then the `getattr(keyboard.Key, part, None)` fallback
together with its `if key_attr:` truthiness test, abstracted as
`g : String → Option PKey` — `g part = some k` when a truthy attribute (the
object `k`) is found, `g part = none` when the attribute is absent or falsy
(the code prints a warning and returns `None`).  The genuine resolver is one
such `g`: its values on enum-member names are those of `Key_getattr`, and its
values on other names (runtime-defined non-member attributes) are some
further keys — any aliasing pattern among the finitely many tokens of a
hotkey string is realized by some `g`, so a statement proved for every `g`
holds of the program. -/
def lookup_key_part_with (g : String → Option PKey) (part : String) :
    Option PKey :=
  match KEY_MAP part with
  | some k => some k
  | none =>
    match part.data with
    | [c] => some (PKey.keycode c)
    | _ => g part

/-- The token resolver instantiated with the enum-member table, adequate for
tokens whose resolution the source and pynput's documented members fix. -/
def lookup_key_part (part : String) : Option PKey :=
  match KEY_MAP part with
  | some k => some k
  | none =>
    match part.data with
    | [c] => some (PKey.keycode c)
    | _ => Key_getattr part

/-- Python `str.split("+")` on the character list of a string: splits at every
`'+'`, keeping empty pieces, and always returns at least one piece. -/
def splitPlusAux : List Char → List Char → List (List Char)
  | [], acc => [acc.reverse]
  | c :: cs, acc =>
    if c = '+' then acc.reverse :: splitPlusAux cs []
    else splitPlusAux cs (c :: acc)

/-- Python `str.strip()` on a character list (ASCII whitespace suffices for
hotkey strings). -/
def pyStrip (cs : List Char) : List Char :=
  ((cs.dropWhile Char.isWhitespace).reverse.dropWhile Char.isWhitespace).reverse

/-- Embeds `hotkey_str.lower().split("+")`: the token list the parse loop iterates
over (tokens still carry surrounding whitespace; `.strip()` is applied per
token inside the loop). -/
def hotkeyTokens (hotkey_str : String) : List String :=
  (splitPlusAux (hotkey_str.data.map Char.toLower) []).map List.asString

/-- Embeds `keys.add(k)` on a Python set represented as a duplicate-free list in
insertion order. -/
def set_add (keys : List PKey) (k : PKey) : List PKey :=
  if k ∈ keys then keys else keys ++ [k]

/-- The `part = part.strip()` step applied to one token. -/
def stripped (part : String) : String := List.asString (pyStrip part.data)

/-- The number of distinct tokens of a hotkey string, tokens being compared
after lower-casing and stripping, exactly as the parser sees them. -/
def distinctTokens (hotkey_str : String) : Nat :=
  (((hotkeyTokens hotkey_str).map stripped).dedup).length

/-- The parse loop of `_parse_hotkey_string` with the attribute resolver
abstracted: fold the tokens into the `keys` set, aborting with `none` at the
first unrecognized token. -/
def parse_parts_with (g : String → Option PKey) :
    List String → List PKey → Option (List PKey)
  | [], keys => some keys
  | part :: rest, keys =>
    match lookup_key_part_with g (stripped part) with
    | some k => parse_parts_with g rest (set_add keys k)
    | none => none

/-- The parse loop of `_parse_hotkey_string` over the enum-member resolver:
fold the tokens into the `keys` set, aborting with `none` at the first
unrecognized token. -/
def parse_parts : List String → List PKey → Option (List PKey)
  | [], keys => some keys
  | part :: rest, keys =>
    match lookup_key_part (stripped part) with
    | some k => parse_parts rest (set_add keys k)
    | none => none

/-- Embeds `HotkeyListener._parse_hotkey_string` with the attribute resolver
abstracted: lower-case, split on `'+'`, look each stripped token up, and
return the key set — `return keys if keys else None`. -/
def parse_hotkey_list_with (g : String → Option PKey)
    (hotkey_str : String) : Option (List PKey) :=
  match parse_parts_with g (hotkeyTokens hotkey_str) [] with
  | some keys => if keys = [] then none else some keys
  | none => none

/-- Embeds `HotkeyListener._parse_hotkey_string` over the enum-member
resolver: lower-case, split on `'+'`, look each stripped token up, and return
the key set — `return keys if keys else None`.  The set is the duplicate-free
list of keys in insertion order (iteration order is irrelevant to every
consumer except the singleton extraction in `__init__`). -/
def parse_hotkey_list (hotkey_str : String) : Option (List PKey) :=
  match parse_parts (hotkeyTokens hotkey_str) [] with
  | some keys => if keys = [] then none else some keys
  | none => none

/-- The function `_parse_hotkey_string` viewed as returning the key set itself. -/
def parse_hotkey_string (hotkey_str : String) : Option (Finset PKey) :=
  (parse_hotkey_list hotkey_str).map List.toFinset

/-- The construction-time data of a `HotkeyListener`: `_trigger_combination`
(an `Optional[Set]` in the Python source — `__init__` always stores a
non-`None` value, but `_on_press` re-checks for `None`) and `_exit_key_obj`. -/
structure HotkeyConfig where
  trigger_combination : Option (Finset PKey)
  exit_key_obj : PKey
  deriving DecidableEq

/-- Embeds `HotkeyListener.__init__`: parse both hotkey strings, raise `ValueError`
(here: `none`) if the trigger parse is falsy, the exit parse is falsy, or the
exit parse has more than one key; otherwise store the trigger set and
`list(parsed_exit)[0]` as the single exit key. -/
def HotkeyListener_init (trigger_hotkey_str exit_hotkey_str : String) :
    Option HotkeyConfig :=
  match parse_hotkey_list trigger_hotkey_str,
        parse_hotkey_list exit_hotkey_str with
  | some trig, some parsed_exit =>
    if trig = [] then none
    else if parsed_exit = [] then none
    else
      match parsed_exit with
      | [k] => some ⟨some trig.toFinset, k⟩
      | _ => none
  | _, _ => none

/-- Embeds `HotkeyListener.__init__` with the attribute resolver abstracted:
the same checks as `HotkeyListener_init`, over `parse_hotkey_list_with g`. -/
def HotkeyListener_init_with (g : String → Option PKey)
    (trigger_hotkey_str exit_hotkey_str : String) : Option HotkeyConfig :=
  match parse_hotkey_list_with g trigger_hotkey_str,
        parse_hotkey_list_with g exit_hotkey_str with
  | some trig, some parsed_exit =>
    if trig = [] then none
    else if parsed_exit = [] then none
    else
      match parsed_exit with
      | [k] => some ⟨some trig.toFinset, k⟩
      | _ => none
  | _, _ => none

/-! ## The listener state machine -/

/-- The mutable instance state of a `HotkeyListener`.

* `current_keys` — `_current_keys`, the set of currently pressed (normalized)
  keys.
* `exit_app_flag` — whether `_exit_app_flag` (a `threading.Event`) is set.
* `is_running_query` — `_is_running_query` (reads and writes happen under
  `_lock`; events are processed sequentially on the listener thread, so the
  lock does not change the sequential semantics embedded here).
* `workflow_callback` — `_workflow_callback`: `none` while `_add_callback` has
  never been called (the attribute does not exist, and reading it raises
  `AttributeError`); `some b` once assigned, where `b` is the truthiness of
  the stored object (`true` for any actual callable).
* `listener` — whether `_listener` currently references a listener object. -/
structure HotkeyState where
  current_keys : Finset PKey
  exit_app_flag : Bool
  is_running_query : Bool
  workflow_callback : Option Bool
  listener : Bool
  deriving DecidableEq

/-- The state established by `__init__` (before any callback registration). -/
def initial_state : HotkeyState :=
  { current_keys := ∅
    exit_app_flag := false
    is_running_query := false
    workflow_callback := none
    listener := false }

/-- Embeds `HotkeyListener._normalize_key`: map left/right (and alt-graph) modifier
variants to the canonical family key; every other key is returned unchanged. -/
def normalize_key : PKey → PKey
  | .shift_l | .shift_r => .shift
  | .ctrl_l | .ctrl_r => .ctrl
  | .alt_l | .alt_r | .alt_gr => .alt
  | .cmd_l | .cmd_r => .cmd
  | k => k

/-- Raw (side- or variant-specific) modifier keys, the inputs that
`_normalize_key` rewrites. -/
def isRawVariant : PKey → Bool
  | .shift_l | .shift_r => true
  | .ctrl_l | .ctrl_r => true
  | .alt_l | .alt_r | .alt_gr => true
  | .cmd_l | .cmd_r => true
  | _ => false

/-- Logical modifier families, for stating the "no two variants of the same
family" invariant. -/
inductive ModFamily where
  | shiftFam | ctrlFam | altFam | cmdFam
  deriving DecidableEq

/-- The modifier family a key belongs to, if any. -/
def modifierFamily : PKey → Option ModFamily
  | .shift | .shift_l | .shift_r => some .shiftFam
  | .ctrl | .ctrl_l | .ctrl_r => some .ctrlFam
  | .alt | .alt_l | .alt_r | .alt_gr => some .altFam
  | .cmd | .cmd_l | .cmd_r => some .cmdFam
  | _ => none

/-- Embeds `HotkeyListener.stop`: drops the `_listener` reference (the pynput thread
signalling is external); never touches the flags. -/
def stop (st : HotkeyState) : HotkeyState := { st with listener := false }

/-- Embeds `HotkeyListener.request_exit`: only the first call has an effect — it sets
`_exit_app_flag` and then calls `stop()`. -/
def request_exit (st : HotkeyState) : HotkeyState :=
  if st.exit_app_flag = false then stop { st with exit_app_flag := true }
  else st

/-- Embeds `HotkeyListener.is_exit_requested`. -/
def is_exit_requested (st : HotkeyState) : Bool := st.exit_app_flag

/-- Embeds `HotkeyListener.set_query_running`. -/
def set_query_running (st : HotkeyState) (status : Bool) : HotkeyState :=
  { st with is_running_query := status }

/-- Embeds `HotkeyListener._add_callback` with an actual function argument (a
callable is always truthy). -/
def add_callback (st : HotkeyState) : HotkeyState :=
  { st with workflow_callback := some true }

/-- Embeds `HotkeyListener.start`: a no-op returning `True` when a listener is
already alive; otherwise the attempt to create and start a listener either
succeeds (`start_ok = true`, external outcome) or fails, in which case
`_listener` is reset to `None` and `False` is returned. -/
def start (st : HotkeyState) (start_ok : Bool) : HotkeyState × Bool :=
  if st.listener then (st, true)
  else if start_ok then ({ st with listener := true }, true)
  else ({ st with listener := false }, false)

/-- What a pynput callback hands back to the event subscription: returning
`False` stops the listener ("halt"); returning `None` or `True` lets it keep
processing events. -/
inductive CallbackReturn where
  | halt      -- `return False`
  | contNone  -- `return None`
  | contTrue  -- `return True` (the `except` branches)
  deriving DecidableEq

/-- Result of one `_on_press` call: the state after the event, the value
returned to pynput, and how many workflow worker threads were spawned. -/
structure PressResult where
  state : HotkeyState
  ret : CallbackReturn
  spawned : Nat
  deriving DecidableEq

/-- The tail of the `try` block of `_on_press`: the exit-key comparison, which
runs after the trigger block on every non-raising path. -/
def on_press_exit_check (cfg : HotkeyConfig) (st : HotkeyState)
    (norm_key : PKey) (spawned : Nat) :
    HotkeyState × Nat × Except Unit CallbackReturn :=
  if norm_key = cfg.exit_key_obj then
    (request_exit st, spawned, Except.ok CallbackReturn.halt)
  else
    (st, spawned, Except.ok CallbackReturn.contNone)

/-- The state after `norm_key = self._normalize_key(key)` followed by
`self._current_keys.add(norm_key)`, the first two statements of the `try`
block of `_on_press`. -/
def press_state (st : HotkeyState) (key : PKey) : HotkeyState :=
  { st with current_keys := insert (normalize_key key) st.current_keys }

/-- The `try` block of `_on_press`: normalize and insert the key, run the
trigger-combination check (spawning the workflow thread when the chord is
complete, no query is running and a callback is stored), then the exit-key
check.  `Except.error ()` marks the one exception reachable in this model:
reading the `_workflow_callback` attribute before `_add_callback` has ever
assigned it raises `AttributeError`, aborting the block (the already-performed
insertion into `_current_keys` persists). -/
def on_press_try (cfg : HotkeyConfig) (st : HotkeyState) (key : PKey) :
    HotkeyState × Nat × Except Unit CallbackReturn :=
  match cfg.trigger_combination with
  | none => (press_state st key, 0, Except.ok CallbackReturn.contNone)
  | some trig =>
    if trig ⊆ (press_state st key).current_keys then
      if (press_state st key).is_running_query = false then
        match (press_state st key).workflow_callback with
        | none => (press_state st key, 0, Except.error ())
        | some cb =>
          if cb then
            on_press_exit_check cfg (press_state st key) (normalize_key key) 1
          else
            on_press_exit_check cfg (press_state st key) (normalize_key key) 0
      else on_press_exit_check cfg (press_state st key) (normalize_key key) 0
    else on_press_exit_check cfg (press_state st key) (normalize_key key) 0

/-- Embeds `HotkeyListener._on_press`: halt immediately when exit was already
requested; otherwise run the `try` block, and on an exception return `True`
(continue) with the state the block had reached. -/
def on_press (cfg : HotkeyConfig) (st : HotkeyState) (key : PKey) :
    PressResult :=
  if st.exit_app_flag then ⟨st, CallbackReturn.halt, 0⟩
  else
    match on_press_try cfg st key with
    | (st1, n, Except.ok r) => ⟨st1, r, n⟩
    | (st1, n, Except.error _) => ⟨st1, CallbackReturn.contTrue, n⟩

/-- Result of one `_on_release` call. -/
structure ReleaseResult where
  state : HotkeyState
  ret : CallbackReturn
  deriving DecidableEq

/-- The `try` block of `_on_release`: normalize and `discard` the key (absent
keys are a no-op); no exception is reachable. -/
def on_release_try (st : HotkeyState) (key : PKey) :
    HotkeyState × Except Unit CallbackReturn :=
  let norm_key := normalize_key key
  ({ st with current_keys := st.current_keys.erase norm_key },
   Except.ok CallbackReturn.contNone)

/-- Embeds `HotkeyListener._on_release`: halt immediately when exit was already
requested; otherwise run the `try` block, returning `True` on an exception. -/
def on_release (st : HotkeyState) (key : PKey) : ReleaseResult :=
  if st.exit_app_flag then ⟨st, CallbackReturn.halt⟩
  else
    match on_release_try st key with
    | (st1, Except.ok r) => ⟨st1, r⟩
    | (st1, Except.error _) => ⟨st1, CallbackReturn.contTrue⟩

/-- A keyboard event as delivered by pynput. -/
inductive KEvent where
  | press (key : PKey)
  | release (key : PKey)
  deriving DecidableEq

/-- State transition of one event (the listener thread processes events
strictly in order). -/
def stepEvent (cfg : HotkeyConfig) (st : HotkeyState) : KEvent → HotkeyState
  | .press key => (on_press cfg st key).state
  | .release key => (on_release st key).state

/-- Process a sequence of events in order. -/
def runEvents (cfg : HotkeyConfig) (st : HotkeyState) (evs : List KEvent) :
    HotkeyState :=
  evs.foldl (stepEvent cfg) st

/-! ## The workflow callback (`ScreenshotAnalyzerApp.run_analysis_workflow`) -/

/-- Embeds `config.ERROR_PREFIX`. -/
def ERROR_PREFIX : String := "Error:"

/-- Embeds `config.BLOCKED_PREFIX`. -/
def BLOCKED_PREFIX : String := "Blocked"

/-- Outcomes of the external collaborators of one workflow run.
`utils.take_screenshot` catches its own exceptions and returns `None` on
failure; `analyze_image` and `speak` may raise arbitrarily (modelled by
`Except`), and the exit flag may be observed set at either cooperative
checkpoint.  (A third `is_exit_requested` checkpoint after `speak` only makes
the function return, which it is about to do anyway, so it is observationally
irrelevant to the effect trace.) -/
structure WorkflowEnv where
  screenshot_result : Option String
  exit_after_screenshot : Bool
  analysis_result : Except Unit String
  exit_after_analysis : Bool
  speaker_available : Bool
  speak_result : Except Unit Bool

/-- The externally visible effects of one workflow run, in order. -/
inductive WfEffect where
  | setRunning (status : Bool)   -- `listener.set_query_running(status)`
  | takeScreenshot               -- `utils.take_screenshot()`
  | analyzeImage (path : String) -- `analyzer.analyze_image(path)`
  | speak (text : String)        -- `speaker.speak(text)`
  | cleanupFile (path : Option String) -- `utils.cleanup_file(screenshot_path)`
  deriving DecidableEq

/-- The `try` block of `run_analysis_workflow`: the effect trace it produces,
the value of the local `screenshot_path` when the block is left, and whether
it was left by an exception (to be caught by the `except` clause). -/
def workflow_try (env : WorkflowEnv) : List WfEffect × Option String × Bool :=
  let acts := [WfEffect.setRunning true, WfEffect.takeScreenshot]
  match env.screenshot_result with
  | none => (acts, none, false)
  | some screenshot_path =>
    if env.exit_after_screenshot then (acts, some screenshot_path, false)
    else
      let acts := acts ++ [WfEffect.analyzeImage screenshot_path]
      match env.analysis_result with
      | Except.error _ => (acts, some screenshot_path, true)
      | Except.ok analysis_result =>
        if env.exit_after_analysis then (acts, some screenshot_path, false)
        else if env.speaker_available
            && !(analysis_result.startsWith ERROR_PREFIX)
            && !(analysis_result.startsWith BLOCKED_PREFIX) then
          let acts := acts ++ [WfEffect.speak analysis_result]
          match env.speak_result with
          | Except.error _ => (acts, some screenshot_path, true)
          | Except.ok _ => (acts, some screenshot_path, false)
        else (acts, some screenshot_path, false)

/-- Embeds `ScreenshotAnalyzerApp.run_analysis_workflow`: the `try` block, whose
exceptions the bare `except Exception` clause swallows (it only prints), and
the `finally` clause, which always runs `utils.cleanup_file(screenshot_path)`
and then `listener.set_query_running(False)` — neither of which can raise
(`cleanup_file` catches internally; `set_query_running` only takes the lock).
Hence the function always returns normally: the result is always `Except.ok`. -/
def run_analysis_workflow (env : WorkflowEnv) : Except Unit (List WfEffect) :=
  let (acts, screenshot_path, _raised) := workflow_try env
  Except.ok (acts ++ [WfEffect.cleanupFile screenshot_path,
                      WfEffect.setRunning false])

/-! ## Concrete fixtures used by witnesses and counterexamples -/

/-- The configuration built by `HotkeyListener("esc", "esc")`: the exit key is
a member of the (single-key) trigger combination. -/
def cfgEsc : HotkeyConfig := ⟨some {PKey.esc}, PKey.esc⟩

/-- The production configuration: trigger `"shift+space"`, exit `"esc"`. -/
def cfgProd : HotkeyConfig := ⟨some {PKey.shift, PKey.space}, PKey.esc⟩

/-- The state after wiring: `_add_callback(app.run_analysis_workflow)` has
been called on a freshly constructed listener. -/
def readyState : HotkeyState := add_callback initial_state

/-! ## Sanity checks of the embedding on concrete inputs -/

example : KEY_MAP "esc" = some PKey.esc := by decide
example : lookup_key_part "a" = some (PKey.keycode 'a') := by decide
example : hotkeyTokens "Shift+ Space" = ["shift", " space"] := by decide
example : parse_hotkey_string "shift+space" = some {PKey.shift, PKey.space} := by
  decide
example : (HotkeyListener_init "shift+space" "esc").isSome = true := by decide
example : HotkeyListener_init "shift+space" "ctrl+esc" = none := by decide
example : HotkeyListener_init "esc" "esc" = some cfgEsc := by decide
example : HotkeyListener_init "shift+space" "esc" = some cfgProd := by decide
example :
    (on_press cfgProd readyState PKey.shift_l).state.current_keys
      = {PKey.shift} := by decide
example : (on_press cfgEsc readyState PKey.esc).spawned = 1 := by decide
example :
    (on_press cfgEsc readyState PKey.esc).state.exit_app_flag = true := by
  decide

/-! ## Helper lemmas -/

theorem on_press_exit_check_spawned (cfg : HotkeyConfig) (st : HotkeyState)
    (nk : PKey) (n : Nat) : (on_press_exit_check cfg st nk n).2.1 = n := by
  unfold on_press_exit_check
  split <;> rfl

theorem on_press_exit_check_ok (cfg : HotkeyConfig) (st : HotkeyState)
    (nk : PKey) (n : Nat) :
    (on_press_exit_check cfg st nk n).2.2 ≠ Except.error () := by
  unfold on_press_exit_check
  split <;> simp

/-! ## Claim theorems -/

/-- Claim C1: For every key-press event processed while ExitFlag is unset, if
the trigger combination is a subset of the pressed-key set (after the event's
key is inserted), RunningFlag is false and a callback is registered, exactly
one worker invocation is spawned for that event; and for every such press
event where RunningFlag is true, zero additional workers are spawned. -/
theorem claim_C1 (cfg : HotkeyConfig) (st : HotkeyState) (key : PKey)
    (trig : Finset PKey)
    (hflag : st.exit_app_flag = false)
    (htrig : cfg.trigger_combination = some trig)
    (hsub : trig ⊆ insert (normalize_key key) st.current_keys) :
    (st.is_running_query = false → st.workflow_callback = some true →
      (on_press cfg st key).spawned = 1)
    ∧ (st.is_running_query = true → (on_press cfg st key).spawned = 0) := by
  have h3 : trig ⊆ (press_state st key).current_keys := hsub
  constructor
  · intro hrun hcb
    have h1 : (press_state st key).is_running_query = false := hrun
    have h2 : (press_state st key).workflow_callback = some true := hcb
    by_cases hc : normalize_key key = cfg.exit_key_obj <;>
      simp [on_press, on_press_try, on_press_exit_check, hflag, htrig, h1, h2,
        h3, hc]
  · intro hrun
    have h1 : (press_state st key).is_running_query = true := hrun
    by_cases hc : normalize_key key = cfg.exit_key_obj <;>
      simp [on_press, on_press_try, on_press_exit_check, hflag, htrig, h1, h3,
        hc]

theorem claim_C1_witness :
    (on_press cfgEsc readyState PKey.esc).spawned = 1
    ∧ (on_press cfgEsc (set_query_running readyState true) PKey.esc).spawned
        = 0 :=
  ⟨(claim_C1 cfgEsc readyState PKey.esc {PKey.esc} rfl rfl (by decide)).1
      rfl rfl,
   (claim_C1 cfgEsc (set_query_running readyState true) PKey.esc {PKey.esc}
      rfl rfl (by decide)).2 rfl⟩

/-- Claim C2: Every press or release event arriving after `request_exit()` has
set ExitFlag makes the handler return the halt signal (`False`) immediately,
with the state unchanged (so `_current_keys` is not touched and the trigger is
not re-checked) and no worker spawned. -/
theorem claim_C2 (cfg : HotkeyConfig) (st : HotkeyState) (key : PKey)
    (hflag : st.exit_app_flag = true) :
    on_press cfg st key = ⟨st, CallbackReturn.halt, 0⟩
    ∧ on_release st key = ⟨st, CallbackReturn.halt⟩ := by
  constructor <;> simp [on_press, on_release, hflag]

theorem claim_C2_witness :
    on_press cfgEsc (request_exit readyState) PKey.space
        = ⟨request_exit readyState, CallbackReturn.halt, 0⟩
    ∧ on_release (request_exit readyState) PKey.space
        = ⟨request_exit readyState, CallbackReturn.halt⟩ :=
  claim_C2 cfgEsc (request_exit readyState) PKey.space (by decide)

/-- Claim C3: `request_exit()` is idempotent: the first call sets ExitFlag and
calls `stop()`; a call on a state where ExitFlag is already set leaves the
state unchanged.  Moreover no operation of the coordinator — press or release
handling, `request_exit`, `set_query_running`, `stop`, `start`,
`_add_callback`, or any event sequence — ever clears ExitFlag once it is
set. -/
theorem claim_C3 :
    (∀ st : HotkeyState, st.exit_app_flag = false →
      request_exit st = stop { st with exit_app_flag := true })
    ∧ (∀ st : HotkeyState, st.exit_app_flag = true → request_exit st = st)
    ∧ (∀ st : HotkeyState,
        request_exit (request_exit st) = request_exit st)
    ∧ (∀ st : HotkeyState, st.exit_app_flag = true →
        (∀ cfg key, (on_press cfg st key).state.exit_app_flag = true)
        ∧ (∀ key, (on_release st key).state.exit_app_flag = true)
        ∧ (request_exit st).exit_app_flag = true
        ∧ (∀ b, (set_query_running st b).exit_app_flag = true)
        ∧ (stop st).exit_app_flag = true
        ∧ (∀ ok, (start st ok).1.exit_app_flag = true)
        ∧ (add_callback st).exit_app_flag = true
        ∧ (∀ cfg evs, (runEvents cfg st evs).exit_app_flag = true)) := by
  have hmono : ∀ (cfg : HotkeyConfig) (st : HotkeyState) (e : KEvent),
      st.exit_app_flag = true → (stepEvent cfg st e).exit_app_flag = true := by
    intro cfg st e h
    cases e <;> simp [stepEvent, on_press, on_release, h]
  refine ⟨?_, ?_, ?_, ?_⟩
  · intro st h
    simp [request_exit, h]
  · intro st h
    simp [request_exit, h]
  · intro st
    by_cases h : st.exit_app_flag = false
    · simp [request_exit, h, stop]
    · simp [request_exit, h]
  · intro st h
    refine ⟨?_, ?_, ?_, ?_, ?_, ?_, ?_, ?_⟩
    · intro cfg key
      simp [on_press, h]
    · intro key
      simp [on_release, h]
    · simp [request_exit, h]
    · intro b
      simp [set_query_running, h]
    · simp [stop, h]
    · intro ok
      by_cases hl : st.listener <;> cases ok <;> simp [start, hl, h]
    · simp [add_callback, h]
    · intro cfg evs
      induction evs generalizing st with
      | nil => simpa [runEvents] using h
      | cons e rest ih =>
        simpa [runEvents] using ih (stepEvent cfg st e) (hmono cfg st e h)

theorem claim_C3_witness :
    request_exit (request_exit initial_state) = request_exit initial_state
    ∧ (request_exit (request_exit readyState)).exit_app_flag = true :=
  ⟨claim_C3.2.2.1 initial_state,
   (claim_C3.2.2.2 (request_exit readyState) (by decide)).2.2.1⟩

/-- Claim C6, counterexample: The claim fails as stated: with the configuration
`HotkeyListener("esc", "esc")` and a freshly constructed listener on which
`_add_callback` has never been called, pressing the exit key `esc` while
ExitFlag is unset completes the trigger chord, so `_on_press` reads the absent
`_workflow_callback` attribute, raising `AttributeError`; the `except` clause
returns `True`.  The exit-key comparison is skipped: `request_exit()` is not
called (ExitFlag stays unset) and the handler does not return the halt
signal. -/
theorem claim_C6_counterexample :
    initial_state.exit_app_flag = false
    ∧ normalize_key PKey.esc = cfgEsc.exit_key_obj
    ∧ (on_press cfgEsc initial_state PKey.esc).ret = CallbackReturn.contTrue
    ∧ (on_press cfgEsc initial_state PKey.esc).ret ≠ CallbackReturn.halt
    ∧ (on_press cfgEsc initial_state PKey.esc).state.exit_app_flag = false := by
  decide

/-- Claim C6, amended: For every key-press event processed while ExitFlag is
unset, *provided the workflow-callback attribute has been assigned* (as the
application always does before starting the listener) and the listener was
properly constructed (its trigger combination is stored), if the normalized
key equals the stored exit key identifier then `request_exit()` is called
(ExitFlag becomes set) and the press handler returns the halt signal. -/
theorem claim_C6_amended (cfg : HotkeyConfig) (st : HotkeyState) (key : PKey)
    (trig : Finset PKey) (cb : Bool)
    (hflag : st.exit_app_flag = false)
    (htrig : cfg.trigger_combination = some trig)
    (hcb : st.workflow_callback = some cb)
    (hexit : normalize_key key = cfg.exit_key_obj) :
    (on_press cfg st key).ret = CallbackReturn.halt
    ∧ (on_press cfg st key).state.exit_app_flag = true := by
  have h2 : (press_state st key).workflow_callback = some cb := hcb
  have hps : (press_state st key).exit_app_flag = false := hflag
  have hre : (request_exit (press_state st key)).exit_app_flag = true := by
    simp [request_exit, hps, stop]
  by_cases hsub : trig ⊆ (press_state st key).current_keys
  · by_cases hrun : (press_state st key).is_running_query = false
    · cases cb <;>
        simp [on_press, on_press_try, on_press_exit_check, hflag, htrig, hsub,
          hrun, h2, hexit, hre]
    · simp [on_press, on_press_try, on_press_exit_check, hflag, htrig, hsub,
        hrun, hexit, hre]
  · simp [on_press, on_press_try, on_press_exit_check, hflag, htrig, hsub,
      hexit, hre]

theorem claim_C6_witness :
    (on_press cfgProd (add_callback (set_query_running initial_state true))
        PKey.esc).ret = CallbackReturn.halt
    ∧ (on_press cfgProd (add_callback (set_query_running initial_state true))
        PKey.esc).state.exit_app_flag = true :=
  claim_C6_amended cfgProd (add_callback (set_query_running initial_state true))
    PKey.esc {PKey.shift, PKey.space} true rfl rfl rfl rfl

/-- Claim C8: Any exception raised inside the `try` block of a press or release
handler is caught by the handler's `except` clause, which returns `True` — a
value that keeps the pynput subscription processing further events (only
`False` halts it); no per-event exception propagates out of the handler. -/
theorem claim_C8 (cfg : HotkeyConfig) (st : HotkeyState) (key : PKey) :
    (st.exit_app_flag = false →
      (on_press_try cfg st key).2.2 = Except.error () →
      (on_press cfg st key).ret = CallbackReturn.contTrue)
    ∧ (st.exit_app_flag = false →
      (on_release_try st key).2 = Except.error () →
      (on_release st key).ret = CallbackReturn.contTrue)
    ∧ CallbackReturn.contTrue ≠ CallbackReturn.halt := by
  refine ⟨?_, ?_, by decide⟩
  · intro hflag herr
    rcases hp : on_press_try cfg st key with ⟨st1, n, r⟩
    rw [hp] at herr
    have hr : r = Except.error () := herr
    subst hr
    simp [on_press, hflag, hp]
  · intro hflag herr
    simp [on_release_try] at herr

theorem claim_C8_witness :
    (on_press cfgEsc initial_state PKey.esc).ret = CallbackReturn.contTrue :=
  (claim_C8 cfgEsc initial_state PKey.esc).1 rfl rfl

/-- Claim C10: Within a single press event the trigger check runs before the
exit-key check: when the exit key is a member of the trigger combination and
one press completes the chord (with a callback registered and no query
running), that event both spawns exactly one workflow worker and then calls
`request_exit()`, returning the halt signal — exit does not preempt a
simultaneous trigger. -/
theorem claim_C10 (cfg : HotkeyConfig) (st : HotkeyState) (key : PKey)
    (trig : Finset PKey)
    (hflag : st.exit_app_flag = false)
    (htrig : cfg.trigger_combination = some trig)
    (hcb : st.workflow_callback = some true)
    (hrun : st.is_running_query = false)
    (hsub : trig ⊆ insert (normalize_key key) st.current_keys)
    (hexit : normalize_key key = cfg.exit_key_obj) :
    (on_press cfg st key).spawned = 1
    ∧ (on_press cfg st key).ret = CallbackReturn.halt
    ∧ (on_press cfg st key).state.exit_app_flag = true := by
  have h1 : (press_state st key).is_running_query = false := hrun
  have h2 : (press_state st key).workflow_callback = some true := hcb
  have h3 : trig ⊆ (press_state st key).current_keys := hsub
  have hps : (press_state st key).exit_app_flag = false := hflag
  have hre : (request_exit (press_state st key)).exit_app_flag = true := by
    simp [request_exit, hps, stop]
  simp [on_press, on_press_try, on_press_exit_check, hflag, htrig, h1, h2, h3,
    hexit, hre]

theorem claim_C10_witness :
    (on_press cfgEsc readyState PKey.esc).spawned = 1
    ∧ (on_press cfgEsc readyState PKey.esc).ret = CallbackReturn.halt
    ∧ (on_press cfgEsc readyState PKey.esc).state.exit_app_flag = true :=
  claim_C10 cfgEsc readyState PKey.esc {PKey.esc} rfl rfl rfl rfl (by decide)
    rfl

/-! ## Normalization invariant (claim C7) -/

theorem normalize_key_not_raw (k : PKey) :
    isRawVariant (normalize_key k) = false := by
  cases k <;> rfl

theorem request_exit_keys (st : HotkeyState) :
    (request_exit st).current_keys = st.current_keys := by
  unfold request_exit stop
  split <;> rfl

theorem on_press_try_keys (cfg : HotkeyConfig) (st : HotkeyState)
    (key : PKey) :
    (on_press_try cfg st key).1.current_keys
      = insert (normalize_key key) st.current_keys := by
  unfold on_press_try on_press_exit_check
  repeat' split
  all_goals simp [request_exit_keys, press_state]

theorem on_press_state_keys (cfg : HotkeyConfig) (st : HotkeyState)
    (key : PKey) :
    (on_press cfg st key).state.current_keys = st.current_keys
    ∨ (on_press cfg st key).state.current_keys
        = insert (normalize_key key) st.current_keys := by
  by_cases hflag : st.exit_app_flag = true
  · left
    simp [on_press, hflag]
  · right
    have hkeys := on_press_try_keys cfg st key
    rcases hp : on_press_try cfg st key with ⟨st1, n, r⟩
    rw [hp] at hkeys
    rcases r with e | r <;>
      simpa [on_press, hflag, hp] using hkeys

theorem on_release_state_keys (st : HotkeyState) (key : PKey) :
    (on_release st key).state.current_keys = st.current_keys
    ∨ (on_release st key).state.current_keys
        = st.current_keys.erase (normalize_key key) := by
  by_cases hflag : st.exit_app_flag = true
  · left
    simp [on_release, hflag]
  · right
    simp [on_release, on_release_try, hflag]

theorem runEvents_no_raw (cfg : HotkeyConfig) (evs : List KEvent)
    (st : HotkeyState)
    (hst : ∀ k ∈ st.current_keys, isRawVariant k = false) :
    ∀ k ∈ (runEvents cfg st evs).current_keys, isRawVariant k = false := by
  induction evs generalizing st with
  | nil => simpa [runEvents] using hst
  | cons e rest ih =>
    have hstep : ∀ k ∈ (stepEvent cfg st e).current_keys,
        isRawVariant k = false := by
      cases e with
      | press key =>
        rcases on_press_state_keys cfg st key with h | h <;>
          · intro k hk
            simp only [stepEvent] at hk
            rw [h] at hk
            first
            | exact hst k hk
            | rcases Finset.mem_insert.mp hk with hk1 | hk1
              · rw [hk1]
                exact normalize_key_not_raw key
              · exact hst k hk1
      | release key =>
        rcases on_release_state_keys st key with h | h <;>
          · intro k hk
            simp only [stepEvent] at hk
            rw [h] at hk
            first
            | exact hst k hk
            | exact hst k (Finset.mem_of_mem_erase hk)
    have : runEvents cfg st (e :: rest)
        = runEvents cfg (stepEvent cfg st e) rest := rfl
    rw [this]
    exact ih (stepEvent cfg st e) hstep

/-- Claim C7: After any sequence of press and release events from the initial
state, PressedKeySet contains no raw (side-specific) modifier variant at all —
in particular it never contains two different raw variants of the same logical
modifier family simultaneously — because every key is normalized before
insertion or removal: left/right shift map to shift, left/right control to
control, left/right/graph alt to alt, and left/right command to command. -/
theorem claim_C7 (cfg : HotkeyConfig) (evs : List KEvent) :
    (runEvents cfg initial_state evs).current_keys.filter
        (fun k => isRawVariant k = true) = ∅
    ∧ normalize_key PKey.shift_l = PKey.shift
    ∧ normalize_key PKey.shift_r = PKey.shift
    ∧ normalize_key PKey.ctrl_l = PKey.ctrl
    ∧ normalize_key PKey.ctrl_r = PKey.ctrl
    ∧ normalize_key PKey.alt_l = PKey.alt
    ∧ normalize_key PKey.alt_r = PKey.alt
    ∧ normalize_key PKey.alt_gr = PKey.alt
    ∧ normalize_key PKey.cmd_l = PKey.cmd
    ∧ normalize_key PKey.cmd_r = PKey.cmd := by
  refine ⟨?_, rfl, rfl, rfl, rfl, rfl, rfl, rfl, rfl, rfl⟩
  have h := runEvents_no_raw cfg evs initial_state
    (by intro k hk; simp [initial_state] at hk)
  rw [Finset.filter_eq_empty_iff]
  intro k hk
  simp [h k hk]

/-! ## Parsing lemmas (claims C4 and C5) -/

theorem parse_parts_isSome (parts : List String) (keys : List PKey) :
    (parse_parts parts keys).isSome = true ↔
      ∀ p ∈ parts, lookup_key_part (stripped p) ≠ none := by
  induction parts generalizing keys with
  | nil => simp [parse_parts]
  | cons p rest ih =>
    rcases hl : lookup_key_part (stripped p) with _ | k
    · simp [parse_parts, hl]
    · simp [parse_parts, hl, ih]

theorem parse_parts_length (parts : List String) (keys ks : List PKey)
    (h : parse_parts parts keys = some ks) :
    keys.length ≤ ks.length := by
  induction parts generalizing keys with
  | nil =>
    simp only [parse_parts, Option.some.injEq] at h
    exact h ▸ Nat.le_refl _
  | cons p rest ih =>
    rw [parse_parts] at h
    rcases hl : lookup_key_part (stripped p) with _ | k <;> rw [hl] at h
    · exact absurd h (by simp)
    · refine Nat.le_trans ?_ (ih _ h)
      unfold set_add
      split <;> simp

theorem parse_parts_mem (parts : List String) (keys ks : List PKey)
    (h : parse_parts parts keys = some ks) :
    ∀ k ∈ ks, k ∈ keys ∨ ∃ p ∈ parts, lookup_key_part (stripped p) = some k := by
  induction parts generalizing keys with
  | nil =>
    simp only [parse_parts, Option.some.injEq] at h
    intro k hk
    exact Or.inl (h ▸ hk)
  | cons p rest ih =>
    rw [parse_parts] at h
    rcases hl : lookup_key_part (stripped p) with _ | k0 <;> rw [hl] at h
    · exact absurd h (by simp)
    · intro k hk
      rcases ih _ h k hk with hmem | ⟨q, hq, hqk⟩
      · unfold set_add at hmem
        by_cases hin : k0 ∈ keys
        · rw [if_pos hin] at hmem
          exact Or.inl hmem
        · rw [if_neg hin] at hmem
          rcases List.mem_append.mp hmem with h1 | h1
          · exact Or.inl h1
          · refine Or.inr ⟨p, List.mem_cons_self p rest, ?_⟩
            rw [List.mem_singleton] at h1
            rw [← h1] at hl
            exact hl
      · exact Or.inr ⟨q, List.mem_cons_of_mem p hq, hqk⟩

theorem parse_parts_nodup (parts : List String) (keys ks : List PKey)
    (h : parse_parts parts keys = some ks) (hnd : keys.Nodup) : ks.Nodup := by
  induction parts generalizing keys with
  | nil =>
    simp only [parse_parts, Option.some.injEq] at h
    exact h ▸ hnd
  | cons p rest ih =>
    rw [parse_parts] at h
    rcases hl : lookup_key_part (stripped p) with _ | k0 <;> rw [hl] at h
    · exact absurd h (by simp)
    · refine ih _ h ?_
      unfold set_add
      by_cases hin : k0 ∈ keys
      · rw [if_pos hin]
        exact hnd
      · rw [if_neg hin]
        simp [List.nodup_append, hnd, hin]

theorem splitPlusAux_ne_nil (cs acc : List Char) : splitPlusAux cs acc ≠ [] := by
  induction cs generalizing acc with
  | nil => simp [splitPlusAux]
  | cons c rest ih =>
    rw [splitPlusAux]
    split
    · simp
    · exact ih _

theorem hotkeyTokens_ne_nil (s : String) : hotkeyTokens s ≠ [] := by
  unfold hotkeyTokens
  intro h
  exact splitPlusAux_ne_nil _ _ (List.map_eq_nil_iff.mp h)

theorem parse_parts_with_isSome (g : String → Option PKey)
    (parts : List String) (keys : List PKey) :
    (parse_parts_with g parts keys).isSome = true ↔
      ∀ p ∈ parts, lookup_key_part_with g (stripped p) ≠ none := by
  induction parts generalizing keys with
  | nil => simp [parse_parts_with]
  | cons p rest ih =>
    rcases hl : lookup_key_part_with g (stripped p) with _ | k
    · simp [parse_parts_with, hl]
    · simp [parse_parts_with, hl, ih]

theorem parse_parts_with_length (g : String → Option PKey)
    (parts : List String) (keys ks : List PKey)
    (h : parse_parts_with g parts keys = some ks) :
    keys.length ≤ ks.length := by
  induction parts generalizing keys with
  | nil =>
    simp only [parse_parts_with, Option.some.injEq] at h
    exact h ▸ Nat.le_refl _
  | cons p rest ih =>
    rw [parse_parts_with] at h
    rcases hl : lookup_key_part_with g (stripped p) with _ | k <;>
      rw [hl] at h
    · exact absurd h (by simp)
    · refine Nat.le_trans ?_ (ih _ h)
      unfold set_add
      split <;> simp

theorem parse_parts_with_ne_nil (g : String → Option PKey) (s : String)
    (l0 : List PKey)
    (hp : parse_parts_with g (hotkeyTokens s) [] = some l0) : l0 ≠ [] := by
  rcases htoks : hotkeyTokens s with _ | ⟨p0, rest⟩
  · exact absurd htoks (hotkeyTokens_ne_nil s)
  · rw [htoks, parse_parts_with] at hp
    rcases hl0 : lookup_key_part_with g (stripped p0) with _ | k0 <;>
      rw [hl0] at hp
    · exact absurd hp (by simp)
    · have hlen := parse_parts_with_length g rest (set_add [] k0) l0 hp
      simp [set_add] at hlen
      intro hnil
      rw [hnil] at hlen
      simp at hlen

theorem parse_hotkey_list_with_some_iff (g : String → Option PKey)
    (s : String) (l : List PKey) :
    parse_hotkey_list_with g s = some l ↔
      parse_parts_with g (hotkeyTokens s) [] = some l ∧ l ≠ [] := by
  constructor
  · intro h
    unfold parse_hotkey_list_with at h
    rcases hp : parse_parts_with g (hotkeyTokens s) [] with _ | l0 <;>
      rw [hp] at h
    · exact absurd h (by simp)
    · change (if l0 = [] then none else some l0) = some l at h
      by_cases h0 : l0 = []
      · rw [if_pos h0] at h
        exact absurd h (by simp)
      · rw [if_neg h0] at h
        have hll : l0 = l := by simpa using h
        subst hll
        exact ⟨rfl, h0⟩
  · intro h
    obtain ⟨h1, h2⟩ := h
    unfold parse_hotkey_list_with
    rw [h1]
    change (if l = [] then none else some l) = some l
    rw [if_neg h2]

theorem parse_hotkey_list_with_none_iff (g : String → Option PKey)
    (s : String) :
    parse_hotkey_list_with g s = none ↔
      ∃ p ∈ hotkeyTokens s, lookup_key_part_with g (stripped p) = none := by
  constructor
  · intro h
    by_contra hno
    have hall : ∀ p ∈ hotkeyTokens s,
        lookup_key_part_with g (stripped p) ≠ none := by
      push_neg at hno
      exact hno
    have hs := (parse_parts_with_isSome g (hotkeyTokens s) []).mpr hall
    rcases hp : parse_parts_with g (hotkeyTokens s) [] with _ | l0
    · rw [hp] at hs
      simp at hs
    · have hsome := (parse_hotkey_list_with_some_iff g s l0).mpr
        ⟨hp, parse_parts_with_ne_nil g s l0 hp⟩
      rw [hsome] at h
      exact absurd h (by simp)
  · intro h
    obtain ⟨p, hp, hlp⟩ := h
    have hnot : ¬ (parse_parts_with g (hotkeyTokens s) []).isSome = true := by
      rw [parse_parts_with_isSome]
      push_neg
      exact ⟨p, hp, hlp⟩
    rcases hpp : parse_parts_with g (hotkeyTokens s) [] with _ | l0
    · unfold parse_hotkey_list_with
      rw [hpp]
    · rw [hpp] at hnot
      exact absurd rfl hnot

theorem HotkeyListener_init_with_none_left (g : String → Option PKey)
    (t e : String) (ht : parse_hotkey_list_with g t = none) :
    HotkeyListener_init_with g t e = none := by
  unfold HotkeyListener_init_with
  rw [ht]

theorem HotkeyListener_init_with_none_right (g : String → Option PKey)
    (t e : String) (lt : List PKey)
    (ht : parse_hotkey_list_with g t = some lt)
    (he : parse_hotkey_list_with g e = none) :
    HotkeyListener_init_with g t e = none := by
  unfold HotkeyListener_init_with
  rw [ht, he]

theorem HotkeyListener_init_with_single (g : String → Option PKey)
    (t e : String) (lt : List PKey) (k : PKey)
    (ht : parse_hotkey_list_with g t = some lt)
    (he : parse_hotkey_list_with g e = some [k])
    (htne : lt ≠ []) :
    HotkeyListener_init_with g t e = some ⟨some lt.toFinset, k⟩ := by
  unfold HotkeyListener_init_with
  rw [ht, he]
  change (if lt = [] then none else if ([k] : List PKey) = [] then none
    else some (HotkeyConfig.mk (some lt.toFinset) k)) = _
  rw [if_neg htne, if_neg (by simp : ¬ ([k] : List PKey) = [])]

theorem HotkeyListener_init_with_multi (g : String → Option PKey)
    (t e : String) (lt : List PKey)
    (k1 k2 : PKey) (lrest : List PKey)
    (ht : parse_hotkey_list_with g t = some lt)
    (he : parse_hotkey_list_with g e = some (k1 :: k2 :: lrest))
    (htne : lt ≠ []) :
    HotkeyListener_init_with g t e = none := by
  unfold HotkeyListener_init_with
  rw [ht, he]
  change (if lt = [] then none
    else if (k1 :: k2 :: lrest : List PKey) = [] then none else none) = _
  rw [if_neg htne, if_neg (by simp : ¬ (k1 :: k2 :: lrest : List PKey) = [])]

theorem lookup_key_part_with_getattr (part : String) :
    lookup_key_part_with Key_getattr part = lookup_key_part part := rfl

theorem parse_parts_with_getattr (parts : List String) (keys : List PKey) :
    parse_parts_with Key_getattr parts keys = parse_parts parts keys := by
  induction parts generalizing keys with
  | nil => rfl
  | cons p rest ih =>
    rw [parse_parts_with, parse_parts, lookup_key_part_with_getattr]
    rcases lookup_key_part (stripped p) with _ | k
    · rfl
    · exact ih _

theorem parse_hotkey_list_with_getattr (s : String) :
    parse_hotkey_list_with Key_getattr s = parse_hotkey_list s := by
  unfold parse_hotkey_list_with parse_hotkey_list
  rw [parse_parts_with_getattr]

theorem HotkeyListener_init_with_getattr (t e : String) :
    HotkeyListener_init_with Key_getattr t e = HotkeyListener_init t e := by
  unfold HotkeyListener_init_with HotkeyListener_init
  simp only [parse_hotkey_list_with_getattr]

theorem parse_parts_ne_nil (s : String) (l0 : List PKey)
    (hp : parse_parts (hotkeyTokens s) [] = some l0) : l0 ≠ [] := by
  rcases htoks : hotkeyTokens s with _ | ⟨p0, rest⟩
  · exact absurd htoks (hotkeyTokens_ne_nil s)
  · rw [htoks, parse_parts] at hp
    rcases hl0 : lookup_key_part (stripped p0) with _ | k0 <;> rw [hl0] at hp
    · exact absurd hp (by simp)
    · have hlen := parse_parts_length rest (set_add [] k0) l0 hp
      simp [set_add] at hlen
      intro hnil
      rw [hnil] at hlen
      simp at hlen

theorem parse_hotkey_list_some_iff (s : String) (l : List PKey) :
    parse_hotkey_list s = some l ↔
      parse_parts (hotkeyTokens s) [] = some l ∧ l ≠ [] := by
  constructor
  · intro h
    unfold parse_hotkey_list at h
    rcases hp : parse_parts (hotkeyTokens s) [] with _ | l0 <;> rw [hp] at h
    · exact absurd h (by simp)
    · change (if l0 = [] then none else some l0) = some l at h
      by_cases h0 : l0 = []
      · rw [if_pos h0] at h
        exact absurd h (by simp)
      · rw [if_neg h0] at h
        have hll : l0 = l := by simpa using h
        subst hll
        exact ⟨rfl, h0⟩
  · intro h
    obtain ⟨h1, h2⟩ := h
    unfold parse_hotkey_list
    rw [h1]
    change (if l = [] then none else some l) = some l
    rw [if_neg h2]

theorem parse_hotkey_list_none_iff (s : String) :
    parse_hotkey_list s = none ↔
      ∃ p ∈ hotkeyTokens s, lookup_key_part (stripped p) = none := by
  constructor
  · intro h
    by_contra hno
    have hall : ∀ p ∈ hotkeyTokens s, lookup_key_part (stripped p) ≠ none := by
      push_neg at hno
      exact hno
    have hs := (parse_parts_isSome (hotkeyTokens s) []).mpr hall
    rcases hp : parse_parts (hotkeyTokens s) [] with _ | l0
    · rw [hp] at hs
      simp at hs
    · have hsome := (parse_hotkey_list_some_iff s l0).mpr
        ⟨hp, parse_parts_ne_nil s l0 hp⟩
      rw [hsome] at h
      exact absurd h (by simp)
  · intro h
    obtain ⟨p, hp, hlp⟩ := h
    have hnot : ¬ (parse_parts (hotkeyTokens s) []).isSome = true := by
      rw [parse_parts_isSome]
      push_neg
      exact ⟨p, hp, hlp⟩
    rcases hpp : parse_parts (hotkeyTokens s) [] with _ | l0
    · unfold parse_hotkey_list
      rw [hpp]
    · rw [hpp] at hnot
      exact absurd rfl hnot

theorem parse_hotkey_list_nodup (s : String) (l : List PKey)
    (h : parse_hotkey_list s = some l) : l.Nodup :=
  parse_parts_nodup (hotkeyTokens s) [] l
    ((parse_hotkey_list_some_iff s l).mp h).1 List.nodup_nil

theorem parse_hotkey_list_mem (s : String) (l : List PKey)
    (h : parse_hotkey_list s = some l) :
    ∀ k ∈ l, ∃ p ∈ hotkeyTokens s, lookup_key_part (stripped p) = some k := by
  intro k hk
  rcases parse_parts_mem (hotkeyTokens s) [] l
      ((parse_hotkey_list_some_iff s l).mp h).1 k hk with hc | hc
  · exact absurd hc (List.not_mem_nil k)
  · exact hc

theorem HotkeyListener_init_none_left (t e : String)
    (ht : parse_hotkey_list t = none) : HotkeyListener_init t e = none := by
  unfold HotkeyListener_init
  rw [ht]

theorem HotkeyListener_init_none_right (t e : String) (lt : List PKey)
    (ht : parse_hotkey_list t = some lt)
    (he : parse_hotkey_list e = none) : HotkeyListener_init t e = none := by
  unfold HotkeyListener_init
  rw [ht, he]

theorem HotkeyListener_init_single (t e : String) (lt : List PKey) (k : PKey)
    (ht : parse_hotkey_list t = some lt) (he : parse_hotkey_list e = some [k])
    (htne : lt ≠ []) :
    HotkeyListener_init t e = some ⟨some lt.toFinset, k⟩ := by
  unfold HotkeyListener_init
  rw [ht, he]
  change (if lt = [] then none else if ([k] : List PKey) = [] then none
    else some (HotkeyConfig.mk (some lt.toFinset) k)) = _
  rw [if_neg htne, if_neg (by simp : ¬ ([k] : List PKey) = [])]

theorem HotkeyListener_init_multi (t e : String) (lt : List PKey)
    (k1 k2 : PKey) (lrest : List PKey)
    (ht : parse_hotkey_list t = some lt)
    (he : parse_hotkey_list e = some (k1 :: k2 :: lrest))
    (htne : lt ≠ []) :
    HotkeyListener_init t e = none := by
  unfold HotkeyListener_init
  rw [ht, he]
  change (if lt = [] then none
    else if (k1 :: k2 :: lrest : List PKey) = [] then none else none) = _
  rw [if_neg htne, if_neg (by simp : ¬ (k1 :: k2 :: lrest : List PKey) = [])]

/-- Claim C4, counterexample: The claim's "exactly when" fails on the code: the
token `"shift_l"` is unrecognized by the fixed `_KEY_MAP` table and is not a
single character, yet construction succeeds, because `_parse_hotkey_string`
has a third branch the claim omits — `getattr(keyboard.Key, part, None)` —
which resolves `"shift_l"` to a key.  (`shift_l` is a genuine `Key` enum
member on every pynput backend, so the member table `Key_getattr` decides
this token exactly as Python does.) -/
theorem claim_C4_counterexample :
    KEY_MAP "shift_l" = none
    ∧ ("shift_l".length = 1 → False)
    ∧ HotkeyListener_init "shift_l" "esc"
        = some ⟨some {PKey.shift_l}, PKey.esc⟩ := by
  refine ⟨by decide, by decide, by decide⟩

/-- Claim C4, amended: Construction from a trigger-hotkey string and an
exit-hotkey string fails (raising `ValueError`, the coordinator not built)
exactly when some token of either string is unrecognized by the code's token
resolver — the fixed `_KEY_MAP` table, then the single-printable-character
rule, then `getattr(keyboard.Key, part, None)` with its truthiness test — or
the exit-hotkey string parses to a set of more than one key (a parse to an
empty set cannot occur: a hotkey string always has at least one token, and
every recognized token contributes a key).  Attribute lookup on the `Key`
class resolves, besides the enum members, non-member class attributes in a
Python-runtime-defined way (for example `"mro"`), so the equivalence is
proved for *every* resolver `g` — hence it holds for the genuine one, of
which the repository's source fixes only the enum-member part.  In
particular, for every resolver, construction with exit hotkey `"esc"`
succeeds with the single exit key `esc`, and construction with exit hotkey
`"ctrl+esc"` fails: those tokens are all resolved by `_KEY_MAP` alone, before
the resolver is ever consulted. -/
theorem claim_C4_amended :
    (∀ (g : String → Option PKey) (t e : String),
      HotkeyListener_init_with g t e = none ↔
        (∃ p ∈ hotkeyTokens t, lookup_key_part_with g (stripped p) = none)
        ∨ (∃ p ∈ hotkeyTokens e, lookup_key_part_with g (stripped p) = none)
        ∨ (∃ l, parse_hotkey_list_with g e = some l ∧ l.length ≠ 1))
    ∧ (∀ g : String → Option PKey, ∃ cfg,
        HotkeyListener_init_with g "shift+space" "esc" = some cfg
        ∧ cfg.exit_key_obj = PKey.esc)
    ∧ (∀ g : String → Option PKey,
        HotkeyListener_init_with g "shift+space" "ctrl+esc" = none) := by
  refine ⟨?_, fun g => ⟨cfgProd, rfl, rfl⟩, fun g => rfl⟩
  intro g t e
  rcases ht : parse_hotkey_list_with g t with _ | lt
  · exact iff_of_true (HotkeyListener_init_with_none_left g t e ht)
      (Or.inl ((parse_hotkey_list_with_none_iff g t).mp ht))
  · have htn : ¬ ∃ p ∈ hotkeyTokens t,
        lookup_key_part_with g (stripped p) = none := by
      rw [← parse_hotkey_list_with_none_iff]
      simp [ht]
    rcases he : parse_hotkey_list_with g e with _ | le
    · exact iff_of_true (HotkeyListener_init_with_none_right g t e lt ht he)
        (Or.inr (Or.inl ((parse_hotkey_list_with_none_iff g e).mp he)))
    · have hen : ¬ ∃ p ∈ hotkeyTokens e,
          lookup_key_part_with g (stripped p) = none := by
        rw [← parse_hotkey_list_with_none_iff]
        simp [he]
      have htne : lt ≠ [] := ((parse_hotkey_list_with_some_iff g t lt).mp ht).2
      rcases le with _ | ⟨k1, _ | ⟨k2, lrest⟩⟩
      · exact absurd ((parse_hotkey_list_with_some_iff g e []).mp he).2
          (by simp)
      · rw [HotkeyListener_init_with_single g t e lt k1 ht he htne]
        refine iff_of_false (by simp) ?_
        rintro (h | h | ⟨l, hl, hlen⟩)
        · exact htn h
        · exact hen h
        · have : [k1] = l := by simpa using hl
          rw [← this] at hlen
          exact absurd rfl hlen
      · rw [HotkeyListener_init_with_multi g t e lt k1 k2 lrest ht he htne]
        exact iff_of_true rfl
          (Or.inr (Or.inr ⟨k1 :: k2 :: lrest, rfl, by simp⟩))

theorem claim_C4_witness :
    HotkeyListener_init_with Key_getattr "foo" "esc" = none
    ∧ HotkeyListener_init "foo" "esc" = none := by
  have h := (claim_C4_amended.1 Key_getattr "foo" "esc").mpr
    (Or.inl ⟨"foo", by decide, by decide⟩)
  refine ⟨h, ?_⟩
  rw [← HotkeyListener_init_with_getattr]
  exact h

/-- Claim C5, counterexample: The claim fails: `"cmd+win"` has two distinct
tokens, but both resolve to the same identifier `keyboard.Key.cmd` (`"win"`
and `"command"` are aliases of `"cmd"` in `_KEY_MAP`), so the parsed set has
one element, not two. -/
theorem claim_C5_counterexample :
    parse_hotkey_string "cmd+win" = some {PKey.cmd}
    ∧ distinctTokens "cmd+win" = 2
    ∧ ({PKey.cmd} : Finset PKey).card ≠ distinctTokens "cmd+win" := by
  refine ⟨by decide, by decide, by decide⟩

/-- Claim C5, amended: For every valid hotkey string, parsing yields a set of
key identifiers whose size is *at most* the number of distinct tokens in the
string (distinct tokens can collapse further when they are aliases of the
same key); duplicate tokens such as `"shift+shift"` collapse to one, and
`"shift+space"` parses to the two-key combination containing the shift-family
identifier and the space identifier. -/
theorem claim_C5_amended :
    (∀ (s : String) (ks : Finset PKey),
      parse_hotkey_string s = some ks → ks.card ≤ distinctTokens s)
    ∧ parse_hotkey_string "shift+shift" = some {PKey.shift}
    ∧ parse_hotkey_string "shift+space" = some {PKey.shift, PKey.space} := by
  refine ⟨?_, by decide, by decide⟩
  intro s ks h
  unfold parse_hotkey_string at h
  rcases hl : parse_hotkey_list s with _ | l <;> rw [hl] at h
  · exact absurd h (by simp)
  · have hks : ks = l.toFinset := by
      have : some l.toFinset = some ks := by simpa using h
      simpa using this.symm
    subst hks
    have hprov := parse_hotkey_list_mem s l hl
    have hsub : l.toFinset ⊆
        (((hotkeyTokens s).map stripped).toFinset).image
          (fun p => (lookup_key_part p).getD PKey.esc) := by
      intro k hk
      rw [List.mem_toFinset] at hk
      obtain ⟨p, hp, hlk⟩ := hprov k hk
      rw [Finset.mem_image]
      refine ⟨stripped p, ?_, ?_⟩
      · rw [List.mem_toFinset]
        exact List.mem_map.mpr ⟨p, hp, rfl⟩
      · rw [hlk]
        rfl
    calc l.toFinset.card
        ≤ ((((hotkeyTokens s).map stripped).toFinset).image
            (fun p => (lookup_key_part p).getD PKey.esc)).card :=
          Finset.card_le_card hsub
      _ ≤ (((hotkeyTokens s).map stripped).toFinset).card :=
          Finset.card_image_le
      _ = distinctTokens s := by
          rw [List.card_toFinset]
          rfl

theorem claim_C5_witness :
    (({PKey.shift, PKey.space} : Finset PKey)).card
      ≤ distinctTokens "shift+space" :=
  claim_C5_amended.1 "shift+space" {PKey.shift, PKey.space} (by decide)

/-- Claim C9: Every execution of the workflow callback
`run_analysis_workflow` returns rather than raises, on all paths — normal
completion, screenshot failure, analysis or speech error, exit requested at a
checkpoint — and on every path the effect trace begins with
`set_query_running(True)` and ends with `cleanup_file(screenshot_path)`
followed by `set_query_running(False)` (the `finally` clause), so the running
flag is always cleared and the temporary file always cleaned up before the
function returns. -/
theorem claim_C9 (env : WorkflowEnv) :
    ∃ mid path,
      run_analysis_workflow env
        = Except.ok ([WfEffect.setRunning true] ++ mid
            ++ [WfEffect.cleanupFile path, WfEffect.setRunning false]) := by
  rcases env with ⟨shot, e1, ana, e2, spk, sres⟩
  rcases shot with _ | p
  · exact ⟨[WfEffect.takeScreenshot], none, rfl⟩
  · cases e1
    · rcases ana with ae | ar
      · exact ⟨[WfEffect.takeScreenshot, WfEffect.analyzeImage p], some p, rfl⟩
      · cases e2
        · by_cases hc : (spk && !ar.startsWith ERROR_PREFIX
              && !ar.startsWith BLOCKED_PREFIX) = true
          · rcases sres with se | sb
            · refine ⟨[WfEffect.takeScreenshot, WfEffect.analyzeImage p,
                WfEffect.speak ar], some p, ?_⟩
              simp only [run_analysis_workflow, workflow_try, hc, if_true]
              rfl
            · refine ⟨[WfEffect.takeScreenshot, WfEffect.analyzeImage p,
                WfEffect.speak ar], some p, ?_⟩
              simp only [run_analysis_workflow, workflow_try, hc, if_true]
              rfl
          · refine ⟨[WfEffect.takeScreenshot, WfEffect.analyzeImage p],
              some p, ?_⟩
            simp only [run_analysis_workflow, workflow_try, hc, if_false]
            rfl
        · exact ⟨[WfEffect.takeScreenshot, WfEffect.analyzeImage p], some p,
            rfl⟩
    · exact ⟨[WfEffect.takeScreenshot], some p, rfl⟩

end GeminiMcqBot
